import Mathlib

/-!
# Verification of rusty-git against its specification

A shallow embedding of the parts of the `rusty-git` repository reached by the
frozen claims, together with theorems settling each claim.

Bytes are modelled as `Nat` (values below 256 where the source has `u8`);
byte strings as `List Nat`.  Fallible Rust code (including panics via
`expect`, `todo!` and slice range errors) is modelled with `Except String`.
SHA-1 and zlib are opaque to every claim, so they appear as function
parameters (`sha`, `deflate`, `inflate`); nothing proved depends on their
definition except where a theorem explicitly assumes `inflate` inverts
`deflate`.
-/

namespace RustyGit

/-! ## Byte-level utilities (src/parser.rs helpers and Rust std formatting) -/

/-- Big-endian byte encoding of `n` in exactly `w` bytes, mirroring Rust's
`to_be_bytes` (for `n` below `2 ^ (8 * w)`). -/
def beBytes : Nat → Nat → List Nat
  | 0, _ => []
  | w + 1, n => beBytes w (n / 256) ++ [n % 256]

/-- Big-endian byte decoding, mirroring `usize::from_be_bytes` as used by
`Parser::parse_usize_exact`. -/
def fromBe (bs : List Nat) : Nat :=
  bs.foldl (fun a b => a * 256 + b) 0

/-- Little-endian digits of `n` in base `base`, with `fuel` recursion budget.
`digitsLE` instantiates the fuel so the budget is never exhausted. -/
def digitsLEAux (base : Nat) : Nat → Nat → List Nat
  | n, 0 => [n]
  | n, fuel + 1 => if n < base then [n] else n % base :: digitsLEAux base (n / base) fuel

/-- Little-endian digits of `n` in base `base` (the digit sequence produced by
Rust's `Display`/`LowerHex` formatting, least significant first). -/
def digitsLE (base n : Nat) : List Nat :=
  digitsLEAux base n n


/-- One step of `usize::from_str_radix`: accumulate a digit byte. -/
def radixStep (base : Nat) (digitVal : Nat → Option Nat) (acc : Option Nat) (b : Nat) :
    Option Nat :=
  acc.bind fun a => (digitVal b).map fun d => a * base + d

/-- `usize::from_str_radix` / `str::parse::<usize>` over a byte string:
empty input or any non-digit byte is an error. -/
def parseRadix (base : Nat) (digitVal : Nat → Option Nat) (bs : List Nat) : Option Nat :=
  if bs = [] then none else bs.foldl (radixStep base digitVal) (some 0)


/-- ASCII byte of a decimal digit as rendered by Rust's `Display`. -/
def decDigitByte (d : Nat) : Nat := d + 48

/-- Digit value accepted by `str::parse::<usize>` (decimal). -/
def decDigitVal (b : Nat) : Option Nat :=
  if 48 ≤ b ∧ b ≤ 57 then some (b - 48) else none

/-- ASCII decimal rendering of `n`, as in `format!` with `{}` on `usize`. -/
def asciiDec (n : Nat) : List Nat :=
  (digitsLE 10 n).reverse.map decDigitByte

/-- `str::parse::<usize>` over the bytes of a decimal string. -/
def parseDec (bs : List Nat) : Option Nat :=
  parseRadix 10 decDigitVal bs

/-- ASCII byte of a lower-case hexadecimal digit as rendered by `{:x}`. -/
def hexDigitByte (d : Nat) : Nat :=
  if d < 10 then d + 48 else d + 87

/-- Digit value accepted by `usize::from_str_radix(s, 16)`. -/
def hexDigitVal (b : Nat) : Option Nat :=
  if 48 ≤ b ∧ b ≤ 57 then some (b - 48)
  else if 97 ≤ b ∧ b ≤ 102 then some (b - 87)
  else if 65 ≤ b ∧ b ≤ 70 then some (b - 55)
  else none

/-- Lower-case hexadecimal rendering of `n`, zero-padded to width 4,
as in `format!` with `{:04x}`. -/
def hex4 (n : Nat) : List Nat :=
  List.replicate (4 - ((digitsLE 16 n).reverse.map hexDigitByte).length) 48 ++
    (digitsLE 16 n).reverse.map hexDigitByte

/-- `usize::from_str_radix(s, 16)` over a byte string. -/
def parseHex (bs : List Nat) : Option Nat :=
  parseRadix 16 hexDigitVal bs


/-! ## `Parser::parse_str` (src/parser.rs lines 69-77)

`read_until` reads up to and including the delimiter (or to end of input),
then `s.pop()` drops the final character unconditionally. -/

/-- `BufRead::read_until`: the consumed bytes (delimiter included when found)
and the unread remainder. -/
def readUntil (delim : Nat) : List Nat → List Nat × List Nat
  | [] => ([], [])
  | b :: rest =>
    if b = delim then ([b], rest)
    else (b :: (readUntil delim rest).1, (readUntil delim rest).2)

/-- `Parser::parse_str`: `read_until` followed by popping the trailing
delimiter (which silently drops a real byte when input ended early). -/
def parseStr (delim : Nat) (l : List Nat) : List Nat × List Nat :=
  let p := readUntil delim l
  (p.1.dropLast, p.2)


/-! ## Objects (src/object.rs) -/

/-- `ObjectType` (src/object.rs lines 328-334). -/
inductive ObjectType
  | blob
  | commit
  | tree
  | tag
  deriving DecidableEq, Repr

/-- `Display for ObjectType` (src/object.rs lines 336-345), as ASCII bytes. -/
def ObjectType.repr : ObjectType → List Nat
  | .blob => [98, 108, 111, 98]
  | .commit => [99, 111, 109, 109, 105, 116]
  | .tree => [116, 114, 101, 101]
  | .tag => [116, 97, 103]

/-- `FromStr for ObjectType` (src/object.rs lines 347-359). -/
def ObjectType.fromStr (s : List Nat) : Option ObjectType :=
  if s = [98, 108, 111, 98] then some .blob
  else if s = [99, 111, 109, 109, 105, 116] then some .commit
  else if s = [116, 114, 101, 101] then some .tree
  else if s = [116, 97, 103] then some .tag
  else none

/-- `ObjectHashable::write for ObjectBuf` (src/object.rs lines 320-326): the
header `"<type> <content_len>\0"` followed by the contents.  The blob branch
of `ObjectHashable::write for Object` (lines 186-193) produces the same bytes
with `content_len` the file's length. -/
def objectBufWriteBytes (t : ObjectType) (contentLen : Nat) (contents : List Nat) :
    List Nat :=
  t.repr ++ [32] ++ asciiDec contentLen ++ [0] ++ contents

/-- Modelled from the spec sentence for the refinement half of the hash claim:
the framed form `"<K> <ascii(|P|)>\0" || P`. -/
def frameSpec (k : ObjectType) (p : List Nat) : List Nat :=
  k.repr ++ [32] ++ asciiDec p.length ++ [0] ++ p

/-- The object store: `.git/objects` as a map from the 40-character
hexadecimal object name to the stored (zlib-compressed) file contents. -/
def Store := List (List Nat × List Nat)

/-- `{:02x}` rendering of a digest, as built by `ObjectHash::from_hasher` /
`from_bytes` (src/object.rs lines 40-55). -/
def hexOfBytes (bs : List Nat) : List Nat :=
  bs.flatMap fun b => [hexDigitByte (b / 16), hexDigitByte (b % 16)]

/-- `std::fs::rename(temp, ...)` into `.git/objects/<2>/<38>`: replaces any
existing file at that path. -/
def Store.put (s : Store) (path content : List Nat) : Store :=
  (path, content) :: List.filter (fun e => !(e.1 = path : Bool)) s

def Store.get (s : Store) (path : List Nat) : Option (List Nat) :=
  (List.find? (fun e => (e.1 = path : Bool)) s).map (·.2)

/-- `ObjectHashable::hash` (src/object.rs lines 149-180) instantiated at an
object whose `write` is effect-free — an in-memory `ObjectBuf` or a blob,
whose `write` only emits the framed bytes: tee the framed bytes into the
SHA-1 hasher and, when `write` is set, zlib-deflate them into a temp file
that is renamed to `.git/objects/<hex[..2]>/<hex[2..]>`; when `write` is not
set the framed bytes go to `std::io::sink()`.  Returns the digest and the
resulting store.  (`hashObj` below is the general form over an object whose
`write` may itself touch the store, as a tree's does.) -/
def hashOp (sha deflate : List Nat → List Nat) (t : ObjectType) (contentLen : Nat)
    (contents : List Nat) (write : Bool) (store : Store) : List Nat × Store :=
  let framed := objectBufWriteBytes t contentLen contents
  let digest := sha framed
  if write then
    (digest, store.put (hexOfBytes digest) (deflate framed))
  else
    (digest, store)

/-- `ObjectBuf::read_at_hash` (src/object.rs lines 288-317) after the zlib
decode: parse the object type up to the space, then the content length up to
the NUL; the parser is left at the payload. -/
def readObjectHeader (l : List Nat) : Except String (ObjectType × Nat × List Nat) :=
  let p1 := parseStr 32 l
  match ObjectType.fromStr p1.1 with
  | none => .error "unrecognized object type"
  | some t =>
    let p2 := parseStr 0 p1.2
    match parseDec p2.1 with
    | none => .error "content length"
    | some n => .ok (t, n, p2.2)

/-! ## Trees (src/tree.rs) -/

/-- `ObjectMode` (src/object.rs lines 25-31). -/
inductive ObjectMode
  | symlink
  | directory
  | executable
  | normal
  deriving DecidableEq, Repr

/-- `FromStr for ObjectMode` (src/object.rs lines 95-107); the strings are
`"120000"`, `"40000"`, `"100755"`, `"100644"` as ASCII bytes. -/
def ObjectMode.fromStr (s : List Nat) : Option ObjectMode :=
  if s = [49, 50, 48, 48, 48, 48] then some .symlink
  else if s = [52, 48, 48, 48, 48] then some .directory
  else if s = [49, 48, 48, 55, 53, 53] then some .executable
  else if s = [49, 48, 48, 54, 52, 52] then some .normal
  else none

/-- `TreeEntry` (src/tree.rs lines 8-13). -/
structure TreeEntry where
  name : List Nat
  mode : ObjectMode
  hash : List Nat
  deriving DecidableEq, Repr

/-- `Parser::read_bytes::<N>` / `read_exact` over a byte list. -/
def readBytesN (n : Nat) (l : List Nat) : Except String (List Nat × List Nat) :=
  if l.length < n then .error "read bytes from inner BufRead"
  else .ok (l.take n, l.drop n)

/-- The entry loop of `Tree::from_buf` (src/tree.rs lines 24-54): parse mode,
name and 20-byte hash, push the entry, and only then check for end of input.
The fuel argument dominates the number of iterations; `treeFromBuf` supplies
`contents.length + 1`, which is sufficient because every iteration consumes
at least one byte. -/
def treeLoop : Nat → List Nat → Except String (List TreeEntry)
  | 0, _ => .error "out of fuel"
  | fuel + 1, l =>
    let pm := parseStr 32 l
    match ObjectMode.fromStr pm.1 with
    | none => .error "expected valid file mode"
    | some mode =>
      let pn := parseStr 0 pm.2
      match readBytesN 20 pn.2 with
      | .error e => .error e
      | .ok (hashBytes, r3) =>
        if r3 = [] then .ok [⟨pn.1, mode, hashBytes⟩]
        else
          match treeLoop fuel r3 with
          | .error e => .error e
          | .ok es => .ok (⟨pn.1, mode, hashBytes⟩ :: es)

/-- `Tree::from_buf` (src/tree.rs lines 16-57). -/
def treeFromBuf (t : ObjectType) (contents : List Nat) : Except String (List TreeEntry) :=
  if t ≠ ObjectType.tree then .error "attempted to parse non-tree as tree"
  else treeLoop (contents.length + 1) contents

/-! ## The hash operation over an object's own write effects
(src/object.rs lines 145-278) -/

/-- `Display for ObjectMode` (src/object.rs lines 84-93), as ASCII bytes. -/
def ObjectMode.reprBytes : ObjectMode → List Nat
  | .symlink => [49, 50, 48, 48, 48, 48]
  | .directory => [52, 48, 48, 48, 48]
  | .executable => [49, 48, 48, 55, 53, 53]
  | .normal => [49, 48, 48, 54, 52, 52]

/-- `ObjectHashable::hash` (src/object.rs lines 149-180) in its general form:
the object's `write` runs first (its bytes teed into the SHA-1 hasher) and
may itself update the store; with `write = true` the framed bytes are then
zlib-deflated into a temp file renamed to `.git/objects/<hex[..2]>/<hex[2..]>`,
with `write = false` they go to `std::io::sink()` and nothing further
happens. -/
def hashObj (sha deflate : List Nat → List Nat) (writeFn : Store → List Nat × Store)
    (write : Bool) (store : Store) : List Nat × Store :=
  let p := writeFn store
  let digest := sha p.1
  if write then (digest, Store.put p.2 (hexOfBytes digest) (deflate p.1))
  else (digest, p.2)

/-- The blob branch of `ObjectHashable::write for Object` (src/object.rs
lines 186-193): effect-free framing of the file contents. -/
def blobWriteFn (contents : List Nat) : Store → List Nat × Store :=
  fun store => (objectBufWriteBytes ObjectType.blob contents.length contents, store)

/-- The child loop of the tree branch of `ObjectHashable::write for Object`
(src/object.rs lines 233-244), over blob children given as
`(mode, file name, contents)` (a subtree child recurses the same way): append
`"<mode> <name>\0"` and the child's 20 digest bytes to the buffer, where the
digest comes from `obj.hash(true)` — which publishes the child to the
store. -/
def treeChildrenFold (sha deflate : List Nat → List Nat) :
    List (ObjectMode × List Nat × List Nat) → List Nat → Store → List Nat × Store
  | [], buf, store => (buf, store)
  | (mode, name, contents) :: rest, buf, store =>
    treeChildrenFold sha deflate rest
      (buf ++ mode.reprBytes ++ [32] ++ name ++ [0] ++
        (hashObj sha deflate (blobWriteFn contents) true store).1)
      (hashObj sha deflate (blobWriteFn contents) true store).2

/-- The tree branch of `ObjectHashable::write for Object` (src/object.rs
lines 194-250): build the entry buffer — publishing every child on the way —
then frame it as `"tree <buf.len>\0" ++ buf`. -/
def treeWriteFn (sha deflate : List Nat → List Nat)
    (children : List (ObjectMode × List Nat × List Nat)) : Store → List Nat × Store :=
  fun store =>
    (objectBufWriteBytes ObjectType.tree
      (treeChildrenFold sha deflate children [] store).1.length
      (treeChildrenFold sha deflate children [] store).1,
     (treeChildrenFold sha deflate children [] store).2)

/-! ## Packet lines (src/packet_line.rs) -/

/-- `PacketLine::repr` (src/packet_line.rs lines 19-29): the empty line
renders as the flush packet `"0000"`; otherwise the length field is
`{:04x}` of `len + 5` followed by the line and a newline. -/
def packetLineRepr (s : List Nat) : List Nat :=
  if s = [] then [48, 48, 48, 48]
  else hex4 (s.length + 5) ++ s ++ [10]

/-- `pkt_line_next` (src/packet_line.rs lines 45-67).  Returns the consumed
byte count and the payload (`none` for a flush, and `(0, none)` when not
enough input is available).  The `expect` on the length parse and the slice
`[..len][4..]` (which requires `len ≥ 4`) are modelled as errors. -/
def pktLineNext (input : List Nat) : Except String (Nat × Option (List Nat)) :=
  if input.length < 4 then .ok (0, none)
  else
    match parseHex (input.take 4) with
    | none => .error "parse pkt len"
    | some len =>
      if len = 0 then .ok (4, none)
      else if input.length < len then .ok (0, none)
      else if len < 4 then .error "slice index out of range"
      else .ok (len, some ((input.take len).drop 4))

/-- `pkt_line_str` (src/packet_line.rs lines 32-34): strip every trailing
newline (`trim_end_matches`). -/
def pktLineStr (pkt : List Nat) : List Nat :=
  (pkt.reverse.dropWhile (fun b => (b = 10 : Bool))).reverse

/-! ## Packs (src/pack.rs) -/

/-- `DeltaInstruction` (src/pack.rs lines 37-44). -/
inductive DeltaInstruction
  | copy (offset size : Nat)
  | add (data : List Nat)
  deriving DecidableEq, Repr

/-- `Parser::read_byte` over a byte list. -/
def readByteE : List Nat → Except String (Nat × List Nat)
  | [] => .error "read byte from inner BufRead"
  | b :: rest => .ok (b, rest)

/-- `Parser::parse_size_enc_bytes` (src/parser.rs lines 103-125) with a fuel
budget; each iteration consumes exactly one byte, so `parseSizeEnc` supplies
`l.length + 1`. -/
def parseSizeEncAux : Nat → List Nat → Except String (List Nat × List Nat)
  | 0, _ => .error "out of fuel"
  | fuel + 1, l =>
    match readByteE l with
    | .error e => .error e
    | .ok (b, rest) =>
      if b &&& 128 = 0 then .ok ([b], rest)
      else
        match parseSizeEncAux fuel rest with
        | .error e => .error e
        | .ok (bs, rest2) => .ok (b :: bs, rest2)

def parseSizeEnc (l : List Nat) : Except String (List Nat × List Nat) :=
  parseSizeEncAux (l.length + 1) l

/-- `size_enc_init` (src/pack.rs lines 498-508). -/
def sizeEncInit : List Nat → Nat → Nat → Nat
  | [], n, _ => n
  | b :: rest, n, shift => sizeEncInit rest (n + ((b &&& 127) <<< shift)) (shift + 7)

/-- `size_enc` (src/pack.rs lines 494-496). -/
def sizeEnc (bs : List Nat) : Nat :=
  sizeEncInit bs 0 0

/-- The gated byte reads of a COPY instruction (src/pack.rs lines 206-227):
for each `(cond, shift)` pair, read one byte and OR it in shifted when the
gate bit is set. -/
def readGated : List (Nat × Nat) → Nat → List Nat → Except String (Nat × List Nat)
  | [], acc, l => .ok (acc, l)
  | (cond, shift) :: gates, acc, l =>
    if cond ≠ 0 then
      match readByteE l with
      | .error e => .error e
      | .ok (b, rest) => readGated gates (acc ||| (b <<< shift)) rest
    else readGated gates acc l

/-- One iteration of the delta instruction loop (src/pack.rs lines 191-233),
for an already-read instruction byte `instr`.  ADD when the MSB is clear
(`size = instr`, then `read_exact` that many data bytes); COPY otherwise,
with up to 4 offset bytes gated by bits `0x01..0x08` (shifts 0/8/16/24) and
up to 3 size bytes gated by bits `0x10..0x40` (shifts 0/8/16). -/
def parseDeltaStep (instr : Nat) (rest : List Nat) :
    Except String (DeltaInstruction × List Nat) :=
  if instr &&& 128 = 0 then
    match readBytesN instr rest with
    | .error e => .error e
    | .ok (data, rest2) => .ok (.add data, rest2)
  else
    match readGated [(instr &&& 1, 0), (instr &&& 2, 8), (instr &&& 4, 16),
        (instr &&& 8, 24)] 0 rest with
    | .error e => .error e
    | .ok (offset, rest2) =>
      match readGated [(instr &&& 16, 0), (instr &&& 32, 8), (instr &&& 64, 16)]
          0 rest2 with
      | .error e => .error e
      | .ok (size, rest3) => .ok (.copy offset size, rest3)

/-- The `while !contents.at_eof()` instruction loop (src/pack.rs lines
190-234), with a fuel budget; every iteration consumes at least the
instruction byte, so `parseDeltaInstrs` supplies `l.length + 1`. -/
def parseDeltaInstrsAux : Nat → List Nat → Except String (List DeltaInstruction)
  | _, [] => .ok []
  | 0, _ :: _ => .error "out of fuel"
  | fuel + 1, instr :: rest =>
    match parseDeltaStep instr rest with
    | .error e => .error e
    | .ok (i, rest2) =>
      match parseDeltaInstrsAux fuel rest2 with
      | .error e => .error e
      | .ok is => .ok (i :: is)

def parseDeltaInstrs (l : List Nat) : Except String (List DeltaInstruction) :=
  parseDeltaInstrsAux (l.length + 1) l

/-- Applying one delta instruction to the output buffer (src/pack.rs lines
242-249).  COPY slices `base[offset..][..size]`, a panic when the range
exceeds the base. -/
def applyOne (base buf : List Nat) : DeltaInstruction → Except String (List Nat)
  | .copy offset size =>
    if offset + size ≤ base.length then .ok (buf ++ (base.drop offset).take size)
    else .error "slice index out of range"
  | .add data => .ok (buf ++ data)

def applyDelta (base : List Nat) : List DeltaInstruction → List Nat →
    Except String (List Nat)
  | [], buf => .ok buf
  | i :: is, buf =>
    match applyOne base buf i with
    | .error e => .error e
    | .ok buf2 => applyDelta base is buf2

/-- The fields of a decoded pack entry used by the RefDelta path and the
index writer (src/pack.rs lines 23-35); the crc32 and byte offset of the
full `PackedObject` are bookkeeping over the raw pack file and are handled
separately where a claim mentions them. -/
structure PackObj where
  hash : List Nat
  size : Nat
  objectType : ObjectType
  contents : List Nat
  deriving DecidableEq, Repr

/-- The delta prelude of a RefDelta record (src/pack.rs lines 183-234): the
base size header (parsed over and discarded), the result size header, and
the instruction list. -/
def deltaPrelude (contents : List Nat) :
    Except String (Nat × List DeltaInstruction) :=
  match parseSizeEnc contents with
  | .error e => .error e
  | .ok (_sizeBaseBytes, r1) =>
    match parseSizeEnc r1 with
    | .error e => .error e
    | .ok (sizeNewBytes, r2) =>
      match parseDeltaInstrs r2 with
      | .error e => .error e
      | .ok instrs => .ok (sizeEnc sizeNewBytes, instrs)

/-- The OBJ_REF_DELTA branch of `Pack::open` (src/pack.rs lines 177-282),
for one record: parse the two size headers and the instruction stream from
the zlib-decoded record `contents`, locate the base among the objects
decoded so far (`expect("base object should exist")` on failure), apply the
instructions, and emit an object whose type is the base's type and whose
declared length is the decoded result size.  No comparison of the
reconstructed payload's length against that result size is performed. -/
def refDeltaDecode (sha : List Nat → List Nat) (decoded : List PackObj)
    (baseHash : List Nat) (contents : List Nat) : Except String PackObj :=
  match deltaPrelude contents with
  | .error e => .error e
  | .ok (sizeNew, instrs) =>
    match decoded.find? (fun o => (o.hash = baseHash : Bool)) with
    | none => .error "base object should exist"
    | some baseObj =>
      match applyDelta baseObj.contents instrs [] with
      | .error e => .error e
      | .ok objBuf =>
        .ok { hash := sha (objectBufWriteBytes baseObj.objectType sizeNew objBuf),
              size := sizeNew,
              objectType := baseObj.objectType,
              contents := objBuf }

/-! ## The pack index writer (src/pack.rs lines 355-492) -/

/-- `FanOutTable::add` (src/pack.rs lines 466-476): bump the counter for the
hash's first byte.  The table is the 256-entry array `inner`. -/
def fanOutAdd (inner : Fin 256 → Nat) (firstByte : Fin 256) : Fin 256 → Nat :=
  Function.update inner firstByte (inner firstByte + 1)

/-- The `fan_out.add(&obj.hash)` loop of `Pack::write_index` (src/pack.rs
lines 381-384), over the first bytes of the object hashes. -/
def fanOutBuild (firstBytes : List (Fin 256)) : Fin 256 → Nat :=
  firstBytes.foldl fanOutAdd (fun _ => 0)

/-- The running sum inside `FanOutTable::cum_freq` (src/pack.rs lines
479-491). -/
def cumFrom : Nat → List Nat → List Nat
  | _, [] => []
  | acc, x :: xs => (acc + x) :: cumFrom (acc + x) xs

def finOf (j : Nat) : Fin 256 :=
  ⟨j % 256, Nat.mod_lt _ (by omega)⟩

/-- `FanOutTable::cum_freq`: the 256 running sums of the counters. -/
def cumFreq (inner : Fin 256 → Nat) : List Nat :=
  cumFrom 0 ((List.range 256).map fun j => inner (finOf j))

/-- The layer-4 loop of `Pack::write_index` (src/pack.rs lines 402-420):
small offsets are stored as-is; for a large offset the entry written is
`0x80000000 & large_offsets.len()` (the source's operator) and the offset is
appended to the layer-5 list.  Returns the layer-4 entry values (each then
written as a big-endian `u32`) and the layer-5 offsets (each then written as
a big-endian `u64`). -/
def layer4Step (acc : List Nat × List Nat) (offset : Nat) : List Nat × List Nat :=
  if offset ≤ 0x7fffffff then (acc.1 ++ [offset], acc.2)
  else (acc.1 ++ [0x80000000 &&& acc.2.length], acc.2 ++ [offset])

def layer4 (offsets : List Nat) : List Nat × List Nat :=
  offsets.foldl layer4Step ([], [])

/-! ## The staging index (src/index.rs) -/

/-- `IndexEntryType` (src/index.rs lines 59-65). -/
inductive IndexEntryType
  | regularFile
  | symbolicLink
  | gitLink
  deriving DecidableEq, Repr

def IndexEntryType.toNat : IndexEntryType → Nat
  | .regularFile => 8
  | .symbolicLink => 10
  | .gitLink => 14

/-- `TryFrom<u8> for IndexEntryType` (src/index.rs lines 78-89). -/
def IndexEntryType.tryFrom (val : Nat) : Except String IndexEntryType :=
  if val = 8 then .ok .regularFile
  else if val = 10 then .ok .symbolicLink
  else if val = 14 then .ok .gitLink
  else .error "parse entry type"

/-- `IndexEntryPermissions` (src/index.rs lines 91-98); the values are octal
`0o000`, `0o644` and `0o755`. -/
inductive IndexEntryPermissions
  | nothing
  | regularFile
  | executableFile
  deriving DecidableEq, Repr

def IndexEntryPermissions.toNat : IndexEntryPermissions → Nat
  | .nothing => 0
  | .regularFile => 420
  | .executableFile => 493

/-- `TryFrom<u16> for IndexEntryPermissions` (src/index.rs lines 100-111). -/
def IndexEntryPermissions.tryFrom (val : Nat) : Except String IndexEntryPermissions :=
  if val = 0 then .ok .nothing
  else if val = 420 then .ok .regularFile
  else if val = 493 then .ok .executableFile
  else .error "parse entry permissions"

/-- `IndexEntryStats` (src/index.rs lines 30-41). -/
structure IndexEntryStats where
  ctime : Nat
  ctime_nsec : Nat
  mtime : Nat
  mtime_nsec : Nat
  dev : Nat
  ino : Nat
  uid : Nat
  gid : Nat
  size : Nat
  deriving DecidableEq, Repr

/-- `IndexEntry` (src/index.rs lines 19-28); `_type` mirrors the source
field name. -/
structure IndexEntry where
  stats : IndexEntryStats
  _type : IndexEntryType
  permissions : IndexEntryPermissions
  hash : List Nat
  name : List Nat
  flags : Nat
  flags_ext : Nat
  deriving DecidableEq, Repr

/-- `Index` (src/index.rs lines 13-17). -/
structure Index where
  version : Nat
  entries : List IndexEntry
  deriving DecidableEq, Repr

/-- `Parser::parse_usize_exact::<N>`: read `N` bytes, big-endian. -/
def rdBe (n : Nat) (l : List Nat) : Except String (Nat × List Nat) :=
  match readBytesN n l with
  | .error e => .error e
  | .ok (bs, rest) => .ok (fromBe bs, rest)

/-- The tail of the entry loop of `Index::read`: name, length check,
padding skip, and the `TryFrom` conversions done at the `entries.push`
site. -/
def parseIndexEntryTail (ctime ctime_nsec mtime mtime_nsec dev ino mode uid
    gid size : Nat) (hash : List Nat) (flags : Nat) (l : List Nat) :
    Except String (IndexEntry × Nat × List Nat) :=
  let pn := parseStr 0 l
  let name := pn.1
  let name_len := flags &&& 0x0fff
  if name.length ≤ 0x0fff ∧ name.length ≠ name_len then
    .error "index entry name length mismatch"
  else
    let entry_len := 62 + name.length + 1
    let overflow := entry_len % 8
    let pad := if overflow = 0 then 0 else 8 - overflow
    let l2 := pn.2.drop pad
    let entry_len2 := entry_len + pad
    match IndexEntryType.tryFrom ((mode &&& 0xf000) >>> 12) with
    | .error e => .error e
    | .ok t =>
      match IndexEntryPermissions.tryFrom (mode &&& 0x01ff) with
      | .error e => .error e
      | .ok perms =>
        .ok (⟨⟨ctime, ctime_nsec, mtime, mtime_nsec, dev, ino, uid, gid, size⟩,
              t, perms, hash, name, flags, 0⟩, entry_len2, l2)

/-- One iteration of the entry loop of `Index::read` (src/index.rs lines
144-223).  Returns the entry, the consumed `entry_len`, and the remaining
bytes.  `version >= 3` hits the `todo!` for extended flags, modelled as an
error. -/
def parseIndexEntry (version : Nat) (l : List Nat) :
    Except String (IndexEntry × Nat × List Nat) :=
  match rdBe 4 l with
  | .error _ => .error "parse ctime"
  | .ok (ctime, l) =>
    match rdBe 4 l with
    | .error _ => .error "parse ctime_nsec"
    | .ok (ctime_nsec, l) =>
      match rdBe 4 l with
      | .error _ => .error "parse mtime"
      | .ok (mtime, l) =>
        match rdBe 4 l with
        | .error _ => .error "parse mtime_nsec"
        | .ok (mtime_nsec, l) =>
          match rdBe 4 l with
          | .error _ => .error "parse dev"
          | .ok (dev, l) =>
            match rdBe 4 l with
            | .error _ => .error "parse ino"
            | .ok (ino, l) =>
              match rdBe 2 (l.drop 2) with
              | .error _ => .error "parse mode"
              | .ok (mode, l) =>
                match rdBe 4 l with
                | .error _ => .error "parse uid"
                | .ok (uid, l) =>
                  match rdBe 4 l with
                  | .error _ => .error "parse gid"
                  | .ok (gid, l) =>
                    match rdBe 4 l with
                    | .error _ => .error "parse size"
                    | .ok (size, l) =>
                      match readBytesN 20 l with
                      | .error _ => .error "parse object hash"
                      | .ok (hash, l) =>
                        match rdBe 2 l with
                        | .error _ => .error "parse flags"
                        | .ok (flags, l) =>
                          if version ≥ 3 then .error "todo: parse extended flags"
                          else
                            parseIndexEntryTail ctime ctime_nsec mtime
                              mtime_nsec dev ino mode uid gid size hash flags l

/-- The `for _ in 0..num_entries` loop of `Index::read`, threading the byte
offset that starts at 12. -/
def parseIndexEntries (version : Nat) :
    Nat → List Nat → Nat → Except String (List IndexEntry × Nat × List Nat)
  | 0, l, offset => .ok ([], offset, l)
  | k + 1, l, offset =>
    match parseIndexEntry version l with
    | .error e => .error e
    | .ok (e, elen, l2) =>
      match parseIndexEntries version k l2 (offset + elen) with
      | .error e2 => .error e2
      | .ok (es, offset2, l3) => .ok (e :: es, offset2, l3)

/-- The extension-skipping loop of `Index::read` (src/index.rs lines
225-240), with a fuel budget (each iteration consumes at least 8 bytes, so
`l.length + 1` suffices). -/
def extLoop (fileSize : Nat) : Nat → List Nat → Nat → Except String Unit
  | 0, _, _ => .error "out of fuel"
  | fuel + 1, l, offset =>
    if offset = fileSize - 20 then .ok ()
    else
      match readBytesN 4 l with
      | .error _ => .error "parse extension header"
      | .ok (_, l1) =>
        match rdBe 4 l1 with
        | .error _ => .error "parse extension size"
        | .ok (extSize, l2) =>
          extLoop fileSize fuel (l2.drop extSize) (offset + 8 + extSize)

/-- `Index::read` (src/index.rs lines 118-243): header check, trailing
SHA-1 checksum verification (`Parser::verify_checksum`, which repositions
the reader at byte 4), version (`as u8`) and entry count, the entry loop,
then the extension loop until the offset reaches `file_size - 20`. -/
def indexRead (sha : List Nat → List Nat) (file : List Nat) : Except String Index :=
  let fileSize := file.length
  match readBytesN 4 file with
  | .error _ => .error "read index header"
  | .ok (hdr, _) =>
    if hdr ≠ [68, 73, 82, 67] then .error "invalid header"
    else if fileSize < 24 then .error "skip beyond start of file"
    else if sha (file.take (fileSize - 20)) ≠ file.drop (fileSize - 20) then
      .error "checksums don't match"
    else
      match rdBe 4 (file.drop 4) with
      | .error _ => .error "parse version"
      | .ok (version32, l) =>
        let version := version32 % 256
        match rdBe 4 l with
        | .error _ => .error "parse number of entries"
        | .ok (numEntries, l2) =>
          match parseIndexEntries version numEntries l2 12 with
          | .error e => .error e
          | .ok (entries, offset, l3) =>
            match extLoop fileSize (l3.length + 1) l3 offset with
            | .error e => .error e
            | .ok () => .ok ⟨version, entries⟩

/-- The per-entry bytes written by `Index::write` (src/index.rs lines
301-337).  Note the source's step 4c writes `entry.stats.mtime_nsec` where
the mtime belongs, and step 4h writes only `(_type as u16) << 12`, dropping
the permission bits. -/
def indexEntryBytes (e : IndexEntry) : List Nat :=
  beBytes 4 e.stats.ctime ++
  beBytes 4 e.stats.ctime_nsec ++
  beBytes 4 e.stats.mtime_nsec ++
  beBytes 4 e.stats.mtime_nsec ++
  beBytes 4 e.stats.dev ++
  beBytes 4 e.stats.ino ++
  [0, 0] ++
  beBytes 2 (e._type.toNat <<< 12) ++
  beBytes 4 e.stats.uid ++
  beBytes 4 e.stats.gid ++
  beBytes 4 e.stats.size ++
  e.hash ++
  beBytes 2 e.flags ++
  e.name ++ [0] ++
  (if (62 + e.name.length + 1) % 8 > 0 then
    List.replicate (8 - (62 + e.name.length + 1) % 8) 0
  else [])

/-- `Index::write` (src/index.rs lines 281-345): header, version 2, entry
count, the entries, no extensions, then `append_checksum` (src/utils.rs)
appends the SHA-1 of everything written so far. -/
def indexWrite (sha : List Nat → List Nat) (idx : Index) : List Nat :=
  let body := [68, 73, 82, 67] ++ beBytes 4 2 ++ beBytes 4 idx.entries.length ++
    (idx.entries.map indexEntryBytes).flatten
  body ++ sha body

/-! ## Concrete stand-ins used to evaluate the models -/

/-- A stand-in for the SHA-1 parameter in concrete evaluations: a constant
20-byte digest.  Nothing evaluated through it depends on SHA-1 itself. -/
def shaStub : List Nat → List Nat := fun _ => List.replicate 20 0

/-- A canonical one-entry staging index: version 2, no extensions, ascending
names, `flags = min(name.len, 0xFFF)`, with distinct `mtime` and `mtime_nsec`
and regular-file permissions. -/
def sampleIndex : Index :=
  ⟨2, [⟨⟨0, 0, 1, 2, 0, 0, 0, 0, 0⟩, .regularFile, .regularFile,
        List.replicate 20 3, [97], 1, 0⟩]⟩

/-- What `Index::read` actually returns for the file `Index::write` produces
from `sampleIndex`: the mtime has been replaced by the mtime_nsec value and
the permissions have been dropped to none. -/
def sampleIndexReadBack : Index :=
  ⟨2, [⟨⟨0, 0, 2, 2, 0, 0, 0, 0, 0⟩, .regularFile, .nothing,
        List.replicate 20 3, [97], 1, 0⟩]⟩

/-! ## Properties of the byte-level utilities -/

theorem digitsLEAux_fuel (base : Nat) (hb : 2 ≤ base) :
    ∀ n f g, n ≤ f → n ≤ g → digitsLEAux base n f = digitsLEAux base n g := by
  intro n
  induction n using Nat.strong_induction_on with
  | _ n ih =>
    intro f g hf hg
    have h0 : 0 < base := by omega
    cases f with
    | zero =>
      have hn : n = 0 := by omega
      subst hn
      cases g with
      | zero => rfl
      | succ g => simp [digitsLEAux, h0]
    | succ f =>
      cases g with
      | zero =>
        have hn : n = 0 := by omega
        subst hn
        simp [digitsLEAux, h0]
      | succ g =>
      simp only [digitsLEAux]
      by_cases h : n < base
      · simp [h]
      · simp only [h, if_false]
        have hn : 0 < n := by omega
        have hdiv : n / base < n := Nat.div_lt_self hn (by omega)
        have hdf : n / base ≤ f := by omega
        have hdg : n / base ≤ g := by omega
        rw [ih (n / base) hdiv f g hdf hdg]

/-- The defining recursion of `digitsLE`, independent of the fuel. -/
theorem digitsLE_eq (base n : Nat) (hb : 2 ≤ base) :
    digitsLE base n = if n < base then [n] else n % base :: digitsLE base (n / base) := by
  by_cases h : n < base
  · match n with
    | 0 => simp [digitsLE, digitsLEAux, h]
    | n + 1 => simp [digitsLE, digitsLEAux, h]
  · have hn : 0 < n := by omega
    match n, hn with
    | n + 1, _ =>
      simp only [digitsLE, digitsLEAux, h, if_false]
      have hdiv : (n + 1) / base < n + 1 := Nat.div_lt_self (by omega) (by omega)
      rw [digitsLEAux_fuel base hb ((n + 1) / base) n ((n + 1) / base) (by omega) (le_refl _)]

theorem digitsLE_lt (base : Nat) (hb : 2 ≤ base) :
    ∀ n, ∀ d ∈ digitsLE base n, d < base := by
  intro n
  induction n using Nat.strong_induction_on with
  | _ n ih =>
    intro d hd
    rw [digitsLE_eq base n hb] at hd
    by_cases h : n < base
    · simp [h] at hd; omega
    · simp only [h, if_false, List.mem_cons] at hd
      rcases hd with h1 | h2
      · subst h1; exact Nat.mod_lt _ (by omega)
      · exact ih (n / base) (Nat.div_lt_self (by omega) (by omega)) d h2

theorem digitsLE_ne_nil (base n : Nat) (hb : 2 ≤ base) : digitsLE base n ≠ [] := by
  rw [digitsLE_eq base n hb]
  by_cases h : n < base <;> simp [h]

theorem digitsLE_length_le (base : Nat) (hb : 2 ≤ base) :
    ∀ n k, 1 ≤ k → n < base ^ k → (digitsLE base n).length ≤ k := by
  intro n
  induction n using Nat.strong_induction_on with
  | _ n ih =>
    intro k hk hn
    rw [digitsLE_eq base n hb]
    by_cases h : n < base
    · simp [h]; omega
    · simp only [h, if_false, List.length_cons]
      have hk2 : 2 ≤ k := by
        by_contra hcon
        have : k = 1 := by omega
        subst this
        simp at hn
        omega
      have hdiv : n / base < base ^ (k - 1) := by
        rw [Nat.div_lt_iff_lt_mul (by omega : 0 < base)]
        have : base ^ (k - 1) * base = base ^ k := by
          rw [← pow_succ]
          congr 1
          omega
        omega
      have := ih (n / base) (Nat.div_lt_self (by omega) (by omega)) (k - 1) (by omega) hdiv
      omega

theorem parseRadix_digits (base : Nat) (hb : 2 ≤ base) (render : Nat → Nat)
    (digitVal : Nat → Option Nat) (hval : ∀ d, d < base → digitVal (render d) = some d) :
    ∀ n a, List.foldl (radixStep base digitVal) (some a)
        ((digitsLE base n).reverse.map render) =
      some (a * base ^ (digitsLE base n).length + n) := by
  intro n
  induction n using Nat.strong_induction_on with
  | _ n ih =>
    intro a
    rw [digitsLE_eq base n hb]
    by_cases h : n < base
    · simp only [h, if_true, List.reverse_singleton, List.map_cons, List.map_nil,
        List.foldl_cons, List.foldl_nil, List.length_singleton]
      simp [radixStep, hval n h, pow_one]
    · simp only [h, if_false, List.reverse_cons, List.map_append, List.map_cons,
        List.map_nil, List.foldl_append, List.foldl_cons, List.foldl_nil, List.length_cons]
      rw [ih (n / base) (Nat.div_lt_self (by omega) (by omega)) a]
      have hmod : digitVal (render (n % base)) = some (n % base) :=
        hval (n % base) (Nat.mod_lt _ (by omega))
      simp only [radixStep, Option.some_bind, hmod, Option.map_some']
      congr 1
      have hdm : n / base * base + n % base = n := by
        rw [Nat.mul_comm]
        exact Nat.div_add_mod n base
      have hpow : a * base ^ (digitsLE base (n / base)).length * base =
          a * base ^ ((digitsLE base (n / base)).length + 1) := by
        rw [pow_succ]; ring
      calc (a * base ^ (digitsLE base (n / base)).length + n / base) * base + n % base
          = a * base ^ (digitsLE base (n / base)).length * base +
              (n / base * base + n % base) := by ring
        _ = a * base ^ ((digitsLE base (n / base)).length + 1) + n := by rw [hpow, hdm]

theorem decDigitVal_decDigitByte (d : Nat) (hd : d < 10) :
    decDigitVal (decDigitByte d) = some d := by
  interval_cases d <;> rfl

theorem hexDigitVal_hexDigitByte (d : Nat) (hd : d < 16) :
    hexDigitVal (hexDigitByte d) = some d := by
  interval_cases d <;> rfl

theorem asciiDec_mem_bounds (n : Nat) : ∀ b ∈ asciiDec n, 48 ≤ b ∧ b ≤ 57 := by
  intro b hb
  simp only [asciiDec, List.mem_map, List.mem_reverse] at hb
  obtain ⟨d, hd, rfl⟩ := hb
  have := digitsLE_lt 10 (by omega) n d hd
  simp only [decDigitByte]
  omega

/-- Decimal rendering and parsing round-trip: the heart of reading back an
object's declared length. -/
theorem parseDec_asciiDec (n : Nat) : parseDec (asciiDec n) = some n := by
  have hd := digitsLE_ne_nil 10 n (by omega)
  have hne : asciiDec n ≠ [] := by
    intro hcon
    have hlen := congrArg List.length hcon
    simp only [asciiDec, List.length_map, List.length_reverse, List.length_nil] at hlen
    exact hd (List.eq_nil_of_length_eq_zero hlen)
  unfold parseDec parseRadix
  rw [if_neg hne]
  unfold asciiDec
  rw [parseRadix_digits 10 (by omega) decDigitByte decDigitVal decDigitVal_decDigitByte n 0]
  simp

theorem hex4_length (n : Nat) (hn : n < 65536) : (hex4 n).length = 4 := by
  have hle : ((digitsLE 16 n).reverse.map hexDigitByte).length ≤ 4 := by
    simp only [List.length_map, List.length_reverse]
    refine digitsLE_length_le 16 (by omega) n 4 (by omega) ?_
    have h16 : (16 : Nat) ^ 4 = 65536 := by norm_num
    omega
  simp only [hex4, List.length_append, List.length_replicate]
  omega

theorem foldl_radixStep_zeros (k : Nat) :
    List.foldl (radixStep 16 hexDigitVal) (some 0) (List.replicate k 48) = some 0 := by
  induction k with
  | zero => rfl
  | succ k ih =>
    rw [List.replicate_succ, List.foldl_cons]
    have : radixStep 16 hexDigitVal (some 0) 48 = some 0 := rfl
    rw [this, ih]

/-- Zero-padded hexadecimal rendering and parsing round-trip: the packet-line
length field survives the wire format. -/
theorem parseHex_hex4 (n : Nat) : parseHex (hex4 n) = some n := by
  have hd := digitsLE_ne_nil 16 n (by omega)
  have hne : hex4 n ≠ [] := by
    intro hcon
    have hlen := congrArg List.length hcon
    simp only [hex4, List.length_append, List.length_replicate, List.length_map,
      List.length_reverse, List.length_nil] at hlen
    exact hd (List.eq_nil_of_length_eq_zero (by omega))
  unfold parseHex parseRadix
  rw [if_neg hne]
  unfold hex4
  rw [List.foldl_append, foldl_radixStep_zeros]
  rw [parseRadix_digits 16 (by omega) hexDigitByte hexDigitVal hexDigitVal_hexDigitByte n 0]
  simp

theorem readUntil_append (delim : Nat) (xs rest : List Nat) (hx : delim ∉ xs) :
    readUntil delim (xs ++ delim :: rest) = (xs ++ [delim], rest) := by
  induction xs with
  | nil => simp [readUntil]
  | cons b xs ih =>
    simp only [List.mem_cons, not_or] at hx
    have hbd : ¬b = delim := fun h => hx.1 h.symm
    simp only [List.cons_append, readUntil, hbd, if_false, List.append_eq, ih hx.2]

theorem parseStr_append (delim : Nat) (xs rest : List Nat) (hx : delim ∉ xs) :
    parseStr delim (xs ++ delim :: rest) = (xs, rest) := by
  simp [parseStr, readUntil_append delim xs rest hx, List.dropLast_concat]

theorem readUntil_length_le (delim : Nat) :
    ∀ l : List Nat, (readUntil delim l).2.length ≤ l.length := by
  intro l
  induction l with
  | nil => simp [readUntil]
  | cons b rest ih =>
    simp only [readUntil]
    by_cases h : b = delim
    · simp [h]
    · simp only [h, if_false, List.length_cons]
      omega

/-! ## Claim C1: object hashing frames the payload, and the header reads back -/

theorem readObjectHeader_frame (k : ObjectType) (n : Nat) (p : List Nat) :
    readObjectHeader (objectBufWriteBytes k n p) = .ok (k, n, p) := by
  have h32 : (32 : Nat) ∉ k.repr := by cases k <;> decide
  have h0 : (0 : Nat) ∉ asciiDec n := by
    intro hmem
    have := asciiDec_mem_bounds n 0 hmem
    omega
  have hk : ObjectType.fromStr k.repr = some k := by cases k <;> rfl
  have hshape : objectBufWriteBytes k n p =
      k.repr ++ 32 :: (asciiDec n ++ 0 :: p) := by
    simp [objectBufWriteBytes]
  rw [hshape]
  simp only [readObjectHeader, parseStr_append 32 k.repr _ h32, hk,
    parseStr_append 0 (asciiDec n) p h0, parseDec_asciiDec]

/-- C1: for every kind `K` and payload `P`, the hash operation digests
exactly the framed byte string `"<K> <ascii(|P|)>\0" || P` (the definition
`frameSpec` written from the spec's words), the digest is the same whether
or not the write flag is set, and reading a stored object back through the
zlib inverse yields the same kind, the same declared length, and the
payload. -/
theorem hash_frames_and_reads_back (sha deflate inflate : List Nat → List Nat)
    (hinv : ∀ x, inflate (deflate x) = x) (k : ObjectType) (p : List Nat)
    (w : Bool) (store : Store) :
    (hashOp sha deflate k p.length p w store).1 = sha (frameSpec k p) ∧
    (hashOp sha deflate k p.length p true store).1 =
      (hashOp sha deflate k p.length p false store).1 ∧
    readObjectHeader (inflate (deflate (objectBufWriteBytes k p.length p))) =
      .ok (k, p.length, p) := by
  refine ⟨?_, rfl, ?_⟩
  · cases w <;> rfl
  · rw [hinv]
    exact readObjectHeader_frame k p.length p

/-- Witness for C1 at `K = blob`, `P = "abc"`, with the identity in place of
zlib. -/
theorem hash_frames_and_reads_back_witness :
    readObjectHeader (objectBufWriteBytes ObjectType.blob 3 [97, 98, 99]) =
      .ok (ObjectType.blob, 3, [97, 98, 99]) :=
  (hash_frames_and_reads_back id id id (fun _ => rfl) ObjectType.blob
    [97, 98, 99] false ([] : Store)).2.2

/-! ## Claim C9: the write flag and the store -/

/-- C9 counterexample: `hash(write = false)` on a tree object with a single
blob child `"a"` (contents `"b"`) is not state-free — the child loop of the
tree's `write` calls `hash(true)` on each child, so the store gains the
child's object file even though the outer call passed `write = false`. -/
theorem hash_tree_false_publishes_children_cex :
    (hashObj shaStub id
        (treeWriteFn shaStub id [(ObjectMode.normal, [97], [98])])
        false ([] : Store)).2 =
      [(List.replicate 40 48, objectBufWriteBytes ObjectType.blob 1 [98])] ∧
    ([(List.replicate 40 48, objectBufWriteBytes ObjectType.blob 1 [98])] : Store) ≠
      ([] : Store) := by
  refine ⟨by rfl, ?_⟩
  exact List.cons_ne_nil _ _

/-- C9 amended: the frame property holds exactly for objects whose `write`
emits the framed bytes without touching the store — in-memory object buffers
and blobs: there `hash(write = false)` returns the object name and leaves
the store unchanged, the name a `write = true` call also returns.  In
general `hash(write = false)` performs precisely the effects of the object's
own `write` — for a tree, publishing every child — and only `write = true`
additionally publishes the object itself. -/
theorem hash_write_false_frame (sha deflate : List Nat → List Nat)
    (t : ObjectType) (len : Nat) (contents : List Nat) (store : Store) :
    hashOp sha deflate t len contents false store =
      (sha (objectBufWriteBytes t len contents), store) ∧
    (hashOp sha deflate t len contents true store).1 =
      (hashOp sha deflate t len contents false store).1 ∧
    hashObj sha deflate (blobWriteFn contents) false store =
      (sha (objectBufWriteBytes ObjectType.blob contents.length contents), store) ∧
    (∀ writeFn : Store → List Nat × Store,
      hashObj sha deflate writeFn false store =
        (sha (writeFn store).1, (writeFn store).2)) ∧
    (∀ children : List (ObjectMode × List Nat × List Nat),
      (hashObj sha deflate (treeWriteFn sha deflate children) false store).2 =
        (treeWriteFn sha deflate children store).2) ∧
    (∀ writeFn : Store → List Nat × Store,
      (hashObj sha deflate writeFn true store).2 =
        Store.put (writeFn store).2 (hexOfBytes (sha (writeFn store).1))
          (deflate (writeFn store).1)) :=
  ⟨rfl, rfl, rfl, fun _ => rfl, fun _ => rfl, fun _ => rfl⟩

/-! ## Claim C10: a successfully parsed tree always has at least one entry -/

theorem treeLoop_ok_ne_nil (fuel : Nat) (l : List Nat) (es : List TreeEntry)
    (h : treeLoop fuel l = .ok es) : es ≠ [] := by
  cases fuel with
  | zero => simp [treeLoop] at h
  | succ fuel =>
    simp only [treeLoop] at h
    cases hm : ObjectMode.fromStr (parseStr 32 l).1 with
    | none => rw [hm] at h; simp at h
    | some mode =>
      rw [hm] at h
      cases hr : readBytesN 20 (parseStr 0 (parseStr 32 l).2).2 with
      | error e => rw [hr] at h; simp at h
      | ok pr =>
        rw [hr] at h
        obtain ⟨hashBytes, r3⟩ := pr
        by_cases hre : r3 = []
        · simp only [hre, if_true] at h
          injection h with h2
          simp [← h2]
        · simp only [hre, if_false] at h
          cases ht : treeLoop fuel r3 with
          | error e => rw [ht] at h; simp at h
          | ok es2 =>
            rw [ht] at h
            injection h with h2
            simp [← h2]

/-- C10: the tree parser reads one entry before its first end-of-input
check, so the empty payload (content length 0, the canonical empty tree) is
an error, and every successfully parsed tree has at least one entry. -/
theorem tree_parse_never_empty :
    (∃ e, treeFromBuf ObjectType.tree [] = .error e) ∧
    ∀ contents es, treeFromBuf ObjectType.tree contents = .ok es → es ≠ [] := by
  constructor
  · exact ⟨"expected valid file mode", rfl⟩
  · intro contents es h
    simp only [treeFromBuf, if_neg (by simp : ¬ObjectType.tree ≠ ObjectType.tree)] at h
    exact treeLoop_ok_ne_nil _ _ _ h

/-- Witness for C10 on the one-entry payload `"100644 a\0" ++ hash`. -/
theorem tree_parse_never_empty_witness :
    ([⟨[97], ObjectMode.normal, List.replicate 20 7⟩] : List TreeEntry) ≠ [] :=
  tree_parse_never_empty.2
    ([49, 48, 48, 54, 52, 52, 32, 97, 0] ++ List.replicate 20 7)
    [⟨[97], ObjectMode.normal, List.replicate 20 7⟩] (by rfl)

/-! ## Claim C3: a COPY with all size-gate bits clear copies zero bytes -/

/-- C3 (evaluating the code at the failing input): the single instruction
byte `0x80` has all offset and size gate bits clear; the decoder produces
`Copy (offset 0, size 0)`, and applying it copies zero bytes from the base
object — not the `0x10000` bytes the format (and the source's own comment
quoting it) requires. -/
theorem delta_copy_zero_size_eval :
    parseDeltaInstrs [128] = .ok [DeltaInstruction.copy 0 0] ∧
    applyDelta [5] [DeltaInstruction.copy 0 0] [] = .ok [] ∧
    (0 : Nat) ≠ 65536 := by
  refine ⟨by rfl, by rfl, by omega⟩

/-! ## Claim C5: the layer-4 entry for a large offset -/

/-- C5 (evaluating the code at the failing input): for offsets at most
`0x7FFFFFFF` the layer-4 entry is the offset itself, but for the offset
`0x80000000` (layer-5 position 0) the source computes
`0x80000000 & large_offsets.len() = 0` instead of
`0x80000000 | 0 = 0x80000000`; the offset itself is appended to layer 5. -/
theorem layer4_large_offset_eval :
    layer4 [5, 2147483648] = ([5, 0], [2147483648]) ∧
    (2147483648 ||| 0) = (2147483648 : Nat) ∧
    (0 : Nat) ≠ 2147483648 ||| 0 := by
  refine ⟨by rfl, by rfl, by simp⟩

/-! ## Claim C8: a RefDelta whose base is absent fails and yields no object -/

/-- C8: when no previously decoded object carries the RefDelta's base name,
the decoder never returns a reconstructed object, and — whenever the delta
headers and instruction stream themselves parse — it fails with precisely
the missing-base error raised at the base lookup. -/
theorem refdelta_missing_base_fails (sha : List Nat → List Nat)
    (decoded : List PackObj) (baseHash contents : List Nat)
    (h : ∀ o ∈ decoded, o.hash ≠ baseHash) :
    (∀ obj, refDeltaDecode sha decoded baseHash contents ≠ .ok obj) ∧
    (∀ r, deltaPrelude contents = .ok r →
      refDeltaDecode sha decoded baseHash contents =
        .error "base object should exist") := by
  have hfind : decoded.find? (fun o => (o.hash = baseHash : Bool)) = none := by
    rw [List.find?_eq_none]
    intro o ho
    simp [h o ho]
  constructor
  · intro obj hcon
    unfold refDeltaDecode at hcon
    cases hp : deltaPrelude contents with
    | error e => rw [hp] at hcon; simp at hcon
    | ok r =>
      obtain ⟨sizeNew, instrs⟩ := r
      rw [hp, hfind] at hcon
      simp at hcon
  · intro r hr
    obtain ⟨sizeNew, instrs⟩ := r
    unfold refDeltaDecode
    rw [hr, hfind]

/-- Witness for C8: an empty decoded list, a zero base name, and the
two-byte delta `[0, 0]` (both size headers zero, no instructions). -/
theorem refdelta_missing_base_fails_witness :
    refDeltaDecode shaStub [] (List.replicate 20 0) [0, 0] =
      .error "base object should exist" :=
  (refdelta_missing_base_fails shaStub [] (List.replicate 20 0) [0, 0]
    (by simp)).2 (0, []) (by rfl)

/-! ## Claim C4: no check of the reconstructed length against result_size -/

/-- C4 counterexample: a RefDelta whose result size header says 5 but whose
instruction stream is empty reconstructs a 0-byte payload, and the decoder
succeeds — it does not fail on the mismatch, contradicting the claim that
the two lengths are verified to agree. -/
theorem refdelta_no_length_check_cex :
    refDeltaDecode shaStub [⟨List.replicate 20 1, 0, ObjectType.blob, []⟩]
      (List.replicate 20 1) [0, 5] =
      .ok ⟨List.replicate 20 0, 5, ObjectType.blob, []⟩ ∧
    (5 : Nat) ≠ ([] : List Nat).length := by
  refine ⟨by rfl, by simp⟩

/-- C4 amended: after applying the delta instructions the decoder performs
no verification at all; it records the result_size decoded from the delta
header as the object's declared length, whatever the reconstructed
payload's length is. -/
theorem refdelta_records_result_size (sha : List Nat → List Nat)
    (decoded : List PackObj) (baseHash contents : List Nat) (obj : PackObj)
    (h : refDeltaDecode sha decoded baseHash contents = .ok obj) :
    ∀ sizeNew instrs, deltaPrelude contents = .ok (sizeNew, instrs) →
      obj.size = sizeNew := by
  intro sizeNew instrs hp
  unfold refDeltaDecode at h
  rw [hp] at h
  cases hf : decoded.find? (fun o => (o.hash = baseHash : Bool)) with
  | none => rw [hf] at h; simp at h
  | some baseObj =>
    rw [hf] at h
    dsimp only at h
    cases ha : applyDelta baseObj.contents instrs [] with
    | error e => rw [ha] at h; simp at h
    | ok objBuf =>
      rw [ha] at h
      injection h with h2
      rw [← h2]

/-- Witness for C4's amended claim at the counterexample input. -/
theorem refdelta_records_result_size_witness :
    PackObj.size ⟨List.replicate 20 0, 5, ObjectType.blob, []⟩ = 5 :=
  refdelta_records_result_size shaStub
    [⟨List.replicate 20 1, 0, ObjectType.blob, []⟩] (List.replicate 20 1)
    [0, 5] ⟨List.replicate 20 0, 5, ObjectType.blob, []⟩ (by rfl) 5 [] (by rfl)

/-! ## Claim C2: the index write/read round-trip -/

/-- C2 (evaluating the code at the failing input): writing the canonical
one-entry index `sampleIndex` and reading the file back succeeds, but
returns `sampleIndexReadBack`, in which the entry's mtime is the original
mtime_nsec value (2 instead of 1) — step 4c of `Index::write` emits
`mtime_nsec` under its `// 4c. mtime` comment — and the permission bits are
gone (the mode word written is only `(_type as u16) << 12`), so the
round-trip `read(write(I)) == I` fails. -/
theorem index_roundtrip_bug_eval :
    indexRead shaStub (indexWrite shaStub sampleIndex) = .ok sampleIndexReadBack ∧
    sampleIndexReadBack ≠ sampleIndex ∧
    sampleIndex.entries.map (fun e => e.stats.mtime) = [1] ∧
    sampleIndexReadBack.entries.map (fun e => e.stats.mtime) = [2] ∧
    sampleIndex.entries.map (fun e => e.permissions) =
      [IndexEntryPermissions.regularFile] ∧
    sampleIndexReadBack.entries.map (fun e => e.permissions) =
      [IndexEntryPermissions.nothing] := by
  refine ⟨by rfl, by decide, by rfl, by rfl, by rfl, by rfl⟩

/-! ## Claim C7: the pkt-line round-trip -/

/-- C7 counterexample: for `S = "\n"` the encoder emits `"0006\n\n"`; the
parser returns the payload `"\n\n"` (the encoder's trailing newline is kept)
and `pkt_line_str` strips both newlines, so neither reading of "parsing
returns exactly S" holds. -/
theorem pkt_line_roundtrip_cex :
    packetLineRepr [10] = [48, 48, 48, 54, 10, 10] ∧
    pktLineNext (packetLineRepr [10]) = .ok (6, some [10, 10]) ∧
    pktLineStr [10, 10] = [] ∧
    ([10, 10] : List Nat) ≠ [10] ∧
    (([] : List Nat) ≠ [10]) := by
  refine ⟨by rfl, by rfl, by rfl, by decide, by decide⟩

/-- C7 amended: for every nonempty `S` of length at most 65516 that does not
end in a newline, the parser returns the payload `S ++ "\n"` and
`pkt_line_str` recovers exactly `S`; `"0000"` parses as a flush (no
payload), which is distinct from every data packet, in particular from the
empty packet `"0004"`. -/
theorem pkt_line_roundtrip (s : List Nat) (hne : s ≠ [])
    (hlen : s.length ≤ 65516) (hlast : s.getLast? ≠ some 10) :
    pktLineNext (packetLineRepr s) = .ok (s.length + 5, some (s ++ [10])) ∧
    pktLineStr (s ++ [10]) = s ∧
    pktLineNext [48, 48, 48, 48] = .ok (4, none) ∧
    pktLineNext [48, 48, 48, 52] = .ok (4, some []) ∧
    ((4, (none : Option (List Nat))) ≠ (4, some [])) := by
  have hn : s.length + 5 < 65536 := by omega
  have h4 : (hex4 (s.length + 5)).length = 4 := hex4_length _ hn
  have hrepr : packetLineRepr s = hex4 (s.length + 5) ++ (s ++ [10]) := by
    simp [packetLineRepr, hne]
  have hlenrepr : (packetLineRepr s).length = s.length + 5 := by
    rw [hrepr]
    simp only [List.length_append, List.length_cons, List.length_nil, h4]
    omega
  refine ⟨?_, ?_, by rfl, by rfl, by simp⟩
  · rw [pktLineNext, if_neg (by omega : ¬(packetLineRepr s).length < 4)]
    have htake : (packetLineRepr s).take 4 = hex4 (s.length + 5) := by
      rw [hrepr]
      exact List.take_left' h4
    rw [htake, parseHex_hex4]
    dsimp only
    rw [if_neg (by omega : ¬s.length + 5 = 0)]
    rw [if_neg (by omega : ¬(packetLineRepr s).length < s.length + 5)]
    rw [if_neg (by omega : ¬s.length + 5 < 4)]
    have htakefull : (packetLineRepr s).take (s.length + 5) = packetLineRepr s := by
      rw [← hlenrepr]
      exact List.take_length _
    rw [htakefull, hrepr, List.drop_left' h4]
  · rw [pktLineStr, List.reverse_append]
    simp only [List.reverse_cons, List.reverse_nil, List.nil_append,
      List.singleton_append]
    rw [List.dropWhile_cons]
    simp only [decide_True, if_true]
    cases hs : s.reverse with
    | nil =>
      exact absurd (by simpa using congrArg List.reverse hs) hne
    | cons a t =>
      have ha : s.getLast? = some a := by
        rw [← List.head?_reverse, hs]
        rfl
      have ha10 : ¬a = 10 := by
        intro hcon
        rw [hcon] at ha
        exact hlast ha
      rw [List.dropWhile_cons]
      simp only [ha10, decide_False, if_false]
      have := congrArg List.reverse hs
      simpa using this.symm

/-- Witness for C7's amended claim at `S = "a"`. -/
theorem pkt_line_roundtrip_witness :
    pktLineNext (packetLineRepr [97]) = .ok (6, some [97, 10]) ∧
    pktLineStr [97, 10] = [97] :=
  ⟨((pkt_line_roundtrip [97] (by decide) (by decide) (by decide)).1),
   ((pkt_line_roundtrip [97] (by decide) (by decide) (by decide)).2.1)⟩

/-! ## Claim C6: the fan-out table is the cumulative first-byte histogram -/

theorem foldl_fanOutAdd_apply :
    ∀ (hs : List (Fin 256)) (f : Fin 256 → Nat) (b : Fin 256),
      hs.foldl fanOutAdd f b = f b + hs.count b := by
  intro hs
  induction hs with
  | nil => intro f b; simp
  | cons h t ih =>
    intro f b
    simp only [List.foldl_cons]
    rw [ih]
    simp only [fanOutAdd, Function.update_apply, List.count_cons]
    by_cases hb : b = h
    · subst hb
      simp
      omega
    · have hb2 : ¬h = b := fun hcon => hb hcon.symm
      simp [hb, hb2]

theorem fanOutBuild_count (hs : List (Fin 256)) (b : Fin 256) :
    fanOutBuild hs b = hs.count b := by
  rw [fanOutBuild, foldl_fanOutAdd_apply]
  omega

theorem cumFrom_length : ∀ (l : List Nat) (acc : Nat),
    (cumFrom acc l).length = l.length := by
  intro l
  induction l with
  | nil => intro acc; rfl
  | cons x xs ih => intro acc; simp [cumFrom, ih]

theorem cumFrom_getElem? : ∀ (l : List Nat) (acc k : Nat), k < l.length →
    (cumFrom acc l)[k]? = some (acc + (l.take (k + 1)).sum) := by
  intro l
  induction l with
  | nil => intro acc k hk; simp at hk
  | cons x xs ih =>
    intro acc k hk
    cases k with
    | zero => simp [cumFrom]
    | succ k =>
      simp only [cumFrom, List.getElem?_cons_succ]
      rw [ih (acc + x) k (by simpa using hk)]
      simp only [List.take_succ_cons, List.sum_cons]
      congr 1
      omega

theorem countP_lt_succ (hs : List (Fin 256)) (m : Nat) (hm : m < 256) :
    hs.countP (fun b => decide (b.val < m + 1)) =
      hs.countP (fun b => decide (b.val < m)) + hs.count (finOf m) := by
  induction hs with
  | nil => simp
  | cons b t ih =>
    simp only [List.countP_cons, List.count_cons]
    rw [ih]
    have hval : (finOf m).val = m := by
      simp [finOf, Nat.mod_eq_of_lt hm]
    by_cases h1 : b.val < m
    · have h2 : b.val < m + 1 := by omega
      have h3 : ¬b = finOf m := by
        intro hcon
        rw [hcon, hval] at h1
        exact absurd h1 (lt_irrefl m)
      simp [h1, h2, h3]
      omega
    · by_cases h4 : b.val = m
      · have h2 : b.val < m + 1 := by omega
        have h3 : b = finOf m := by
          apply Fin.ext
          rw [h4, hval]
        simp [h3, hval]
        omega
      · have h2 : ¬b.val < m + 1 := by omega
        have h3 : ¬b = finOf m := by
          intro hcon
          apply h4
          rw [hcon, hval]
        simp [h1, h2, h3]

theorem sum_range_counts (hs : List (Fin 256)) :
    ∀ m, m ≤ 256 →
      (((List.range m).map fun j => hs.count (finOf j)).sum) =
        hs.countP (fun b => decide (b.val < m)) := by
  intro m
  induction m with
  | zero =>
    intro _
    symm
    simp only [List.range_zero, List.map_nil, List.sum_nil]
    rw [List.countP_eq_zero]
    intro b _
    simp
  | succ m ih =>
    intro hm
    rw [List.range_succ, List.map_append, List.sum_append]
    simp only [List.map_cons, List.map_nil, List.sum_cons, List.sum_nil]
    rw [ih (by omega), countP_lt_succ hs m (by omega)]
    omega

theorem countP_le_countP (hs : List (Fin 256)) (p q : Fin 256 → Bool)
    (h : ∀ b, p b = true → q b = true) : hs.countP p ≤ hs.countP q := by
  induction hs with
  | nil => simp
  | cons b t ih =>
    simp only [List.countP_cons]
    by_cases hp : p b = true
    · simp [hp, h b hp]
      omega
    · have hp2 : p b = false := by
        cases hpb : p b
        · rfl
        · exact absurd hpb hp
      simp only [hp2, if_false]
      by_cases hq : q b = true
      · simp [hq]
        omega
      · have hq2 : q b = false := by
          cases hqb : q b
          · rfl
          · exact absurd hqb hq
        simp [hq2]
        omega

theorem cumFreq_fanOut_getElem? (hs : List (Fin 256)) (i : Nat) (hi : i < 256) :
    (cumFreq (fanOutBuild hs))[i]? =
      some (hs.countP fun b => decide (b.val ≤ i)) := by
  rw [cumFreq, cumFrom_getElem? _ 0 i (by simp [hi])]
  congr 1
  rw [← List.map_take, List.take_range]
  have hmin : min (i + 1) 256 = i + 1 := by omega
  rw [hmin]
  have hmap : (List.range (i + 1)).map (fun j => fanOutBuild hs (finOf j)) =
      (List.range (i + 1)).map (fun j => hs.count (finOf j)) := by
    apply List.map_congr_left
    intro j _
    exact fanOutBuild_count hs (finOf j)
  rw [hmap, sum_range_counts hs (i + 1) (by omega)]
  have hpq : (fun b : Fin 256 => decide (b.val < i + 1)) =
      (fun b : Fin 256 => decide (b.val ≤ i)) := by
    funext b
    simp [Nat.lt_succ_iff]
  rw [hpq]
  omega

/-- C6: for every list of first name bytes, the fan-out table written to the
sidecar index has exactly 256 entries; entry `i` is the number of objects
whose first byte is at most `i`, the entries are monotonically
non-decreasing, and entry 255 is the total object count. -/
theorem fanout_table_spec (hs : List (Fin 256)) :
    (cumFreq (fanOutBuild hs)).length = 256 ∧
    (∀ i : Fin 256, (cumFreq (fanOutBuild hs))[i.val]? =
      some (hs.countP fun b => decide (b.val ≤ i.val))) ∧
    (∀ i j : Fin 256, i ≤ j →
      (cumFreq (fanOutBuild hs)).getD i.val 0 ≤
        (cumFreq (fanOutBuild hs)).getD j.val 0) ∧
    (cumFreq (fanOutBuild hs)).getD 255 0 = hs.length := by
  have hget : ∀ i : Nat, i < 256 → (cumFreq (fanOutBuild hs))[i]? =
      some (hs.countP fun b => decide (b.val ≤ i)) :=
    fun i hi => cumFreq_fanOut_getElem? hs i hi
  have hgetD : ∀ i : Nat, i < 256 → (cumFreq (fanOutBuild hs)).getD i 0 =
      hs.countP (fun b => decide (b.val ≤ i)) := by
    intro i hi
    rw [List.getD_eq_getElem?_getD, hget i hi]
    rfl
  refine ⟨?_, fun i => hget i.val i.isLt, ?_, ?_⟩
  · rw [cumFreq, cumFrom_length]
    simp
  · intro i j hij
    rw [hgetD i.val i.isLt, hgetD j.val j.isLt]
    apply countP_le_countP
    intro b hb
    simp only [decide_eq_true_eq] at hb ⊢
    have : (i : Nat) ≤ (j : Nat) := hij
    omega
  · rw [hgetD 255 (by omega)]
    rw [List.countP_eq_length]
    intro b _
    simp only [decide_eq_true_eq]
    have := b.isLt
    omega

/-- Witness for C6 on the two-object list with first bytes 3 and 200. -/
theorem fanout_table_spec_witness :
    (cumFreq (fanOutBuild [finOf 3, finOf 200])).getD 0 0 ≤
      (cumFreq (fanOutBuild [finOf 3, finOf 200])).getD 255 0 :=
  (fanout_table_spec [finOf 3, finOf 200]).2.2.1 ⟨0, by omega⟩ ⟨255, by omega⟩
    (by decide)

end RustyGit
